import Mathlib

/-!
Verification of the ha_snapshot integration core (custom_components/ha_snapshot/__init__.py):
a shallow embedding of the snapshot Builder (gather_ha_data) and the selective-import
Reconciler (handle_import_data), together with theorems settling the specification claims.

Python dictionaries are embedded as association lists with dict insertion-order semantics,
JSON values as the inductive type JVal, and Python truthiness as pyTruthy.
-/

namespace HaSnapshot

/-- A JSON value, the result of json.loads on the import text.
Objects and arrays keep their order; numbers are embedded as integers. -/
inductive JVal : Type where
  | jnull : JVal
  | jbool : Bool → JVal
  | jnum : Int → JVal
  | jstr : String → JVal
  | jarr : List JVal → JVal
  | jobj : List (String × JVal) → JVal
deriving Repr

mutual

/-- Structural equality of JSON values (Python == on parsed JSON data). -/
def JVal.beq : JVal → JVal → Bool
  | .jnull, .jnull => true
  | .jbool a, .jbool b => a == b
  | .jnum a, .jnum b => a == b
  | .jstr a, .jstr b => a == b
  | .jarr a, .jarr b => JVal.beqList a b
  | .jobj a, .jobj b => JVal.beqObj a b
  | _, _ => false

def JVal.beqList : List JVal → List JVal → Bool
  | [], [] => true
  | x :: xs, y :: ys => JVal.beq x y && JVal.beqList xs ys
  | _, _ => false

def JVal.beqObj : List (String × JVal) → List (String × JVal) → Bool
  | [], [] => true
  | (k, v) :: xs, (l, w) :: ys => k == l && JVal.beq v w && JVal.beqObj xs ys
  | _, _ => false

end

instance : BEq JVal := ⟨JVal.beq⟩

/-- Python truthiness of a JSON value (bool(v)). -/
def pyTruthy : JVal → Bool
  | .jnull => false
  | .jbool b => b
  | .jnum n => n != 0
  | .jstr s => s != ""
  | .jarr xs => !xs.isEmpty
  | .jobj kvs => !kvs.isEmpty

/-- isinstance(v, list). -/
def JVal.isArr : JVal → Bool
  | .jarr _ => true
  | _ => false

/-- Python truthiness of an optional string field (None and the empty string are falsy). -/
def optTruthy : Option String → Bool
  | none => false
  | some s => s != ""

/-- Dictionary lookup d.get(k) on an association list (first matching key). -/
def alistGet {α : Type} : List (String × α) → String → Option α
  | [], _ => none
  | (k, v) :: rest, key => if k == key then some v else alistGet rest key

/-- Dictionary assignment d[k] = v: replace in place if the key exists, else append. -/
def alistSet {α : Type} : List (String × α) → String → α → List (String × α)
  | [], key, v => [(key, v)]
  | (k, w) :: rest, key, v =>
      if k == key then (key, v) :: rest else (k, w) :: alistSet rest key v

/-- Remove a key from an association list (used to compare a record missing a field
with a record carrying a falsy value for it). -/
def alistErase {α : Type} : List (String × α) → String → List (String × α)
  | [], _ => []
  | (k, v) :: rest, key => if k == key then alistErase rest key else (k, v) :: alistErase rest key

/-- Python iteration `for x in v`: arrays yield elements, strings yield one-character
strings, objects yield their keys; other values raise TypeError (none). -/
def pyIter : JVal → Option (List JVal)
  | .jarr xs => some xs
  | .jstr s => some (s.toList.map fun c => JVal.jstr (String.mk [c]))
  | .jobj kvs => some (kvs.map fun kv => JVal.jstr kv.fst)
  | _ => none

/-- Python v.get(k, dflt): objects look the key up, every other value raises
AttributeError (none). -/
def pyGetD : JVal → String → JVal → Option JVal
  | .jobj kvs, k, dflt => some ((alistGet kvs k).getD dflt)
  | _, _, _ => none

/-- The integration domain constant (const.DOMAIN), the namespace key this system owns
inside the extension-options mapping of each entity. -/
def DOMAIN : String := "ha_snapshot"

/-- A live entity-registry entry (homeassistant RegistryEntry), restricted to the fields
the integration reads or writes plus representative untouched fields for frame reasoning.
options is the per-namespace extension-options mapping: namespace key to keyed sub-mapping. -/
structure RegEntry : Type where
  entity_id : String
  name : JVal
  options : List (String × List (String × JVal))
  device_id : Option String
  disabled_by : Option String
  unique_id : String
  platform : String
deriving Repr

/-- The live entity registry: the entities mapping, keyed by entity_id. -/
abbrev Registry : Type := List RegEntry

/-- Reconciler loop state: the two counters and the live registry. -/
structure St : Type where
  applied : Nat
  skipped : Nat
  reg : Registry
deriving Repr

/-- An exception inside the Reconciler traversal, carrying the state at the time it is
raised: a TypeError/AttributeError from the document shape, or an unexpected error
raised by the registry update call. -/
inductive RunErr : Type where
  | typeErr : St → RunErr
  | updateErr : St → RunErr
deriving Repr

/-- The state at the moment a traversal error was raised. -/
def RunErr.st : RunErr → St
  | .typeErr s => s
  | .updateErr s => s

/-- The cur_options staged for an update: a shallow copy of the entity options with
options[DOMAIN]["labels"] set to the new labels (setdefault inserts an empty mapping
when the namespace key is absent). -/
def stageOpts (opts : List (String × List (String × JVal))) (lb : JVal) :
    List (String × List (String × JVal)) :=
  alistSet opts DOMAIN (alistSet ((alistGet opts DOMAIN).getD []) "labels" lb)

/-- entity_registry.async_update_entity(ent_id, ...): update the (unique) entry with the
given id, setting its name when staged and rebuilding its options from its own
options when labels are staged; every other entry and field is untouched. -/
def updateFirst : Registry → String → Option JVal → Option JVal → Registry
  | [], _, _, _ => []
  | e :: rest, i, nm, lb =>
      if e.entity_id == i then
        { e with
          name := nm.getD e.name
          options := match lb with
            | some v => stageOpts e.options v
            | none => e.options } :: rest
      else e :: updateFirst rest i nm lb

/-- entity_registry.entities.get(ent_id): the keys are strings, so only a string value
can match; unhashable values (lists, dicts) raise TypeError. -/
def lookupEntity (reg : Registry) : JVal → Option (Option RegEntry)
  | .jstr s => some (reg.find? fun e => e.entity_id == s)
  | .jarr _ => none
  | .jobj _ => none
  | _ => some none

/-- Processing of one leaf entity record of the document (the body of the innermost
loop of handle_import_data): skip on falsy/absent entity_id, skip on lookup miss,
stage name only when supplied, truthy and different, stage labels whenever a
non-empty list is supplied, then apply a single combined update or count skipped.
fails models the registry update call raising an unexpected error for a given id. -/
def processEnt (fails : String → Bool) (ent : JVal) (st : St) : Except RunErr St :=
  match ent with
  | .jobj kvs =>
    let entId := (alistGet kvs "entity_id").getD .jnull
    if pyTruthy entId then
      match lookupEntity st.reg entId with
      | none => .error (.typeErr st)
      | some none => .ok { st with skipped := st.skipped + 1 }
      | some (some f) =>
        match entId with
        | .jstr s =>
          let newName := (alistGet kvs "name").getD .jnull
          let newLabels := (alistGet kvs "labels").getD .jnull
          let nameStaged := pyTruthy newName && !(JVal.beq newName f.name)
          let labelsStaged := pyTruthy newLabels && newLabels.isArr
          if nameStaged || labelsStaged then
            if fails s then .error (.updateErr st)
            else .ok { st with
              applied := st.applied + 1
              reg := updateFirst st.reg s
                (if nameStaged then some newName else none)
                (if labelsStaged then some newLabels else none) }
          else .ok { st with skipped := st.skipped + 1 }
        | _ => .ok { st with skipped := st.skipped + 1 }
    else .ok { st with skipped := st.skipped + 1 }
  | _ => .error (.typeErr st)

/-- The innermost loop: process each leaf record of one device block in order,
aborting the traversal at the first raised error. -/
def runEnts (fails : String → Bool) : List JVal → St → Except RunErr St
  | [], st => .ok st
  | e :: es, st =>
      match processEnt fails e st with
      | .ok st2 => runEnts fails es st2
      | .error er => .error er

/-- The devices loop: for each device block, read its entities list and run the leaf loop. -/
def runDevs (fails : String → Bool) : List JVal → St → Except RunErr St
  | [], st => .ok st
  | d :: ds, st =>
      match pyGetD d "entities" (.jarr []) with
      | none => .error (.typeErr st)
      | some ev =>
        match pyIter ev with
        | none => .error (.typeErr st)
        | some es =>
          match runEnts fails es st with
          | .ok st2 => runDevs fails ds st2
          | .error er => .error er

/-- The areas loop: for each area block, read its devices list and run the devices loop. -/
def runAreas (fails : String → Bool) : List JVal → St → Except RunErr St
  | [], st => .ok st
  | a :: as_, st =>
      match pyGetD a "devices" (.jarr []) with
      | none => .error (.typeErr st)
      | some dv =>
        match pyIter dv with
        | none => .error (.typeErr st)
        | some ds =>
          match runDevs fails ds st with
          | .ok st2 => runAreas fails as_ st2
          | .error er => .error er

/-- The floors loop: for each floor, read its areas list and run the areas loop. -/
def runFloors (fails : String → Bool) : List JVal → St → Except RunErr St
  | [], st => .ok st
  | f :: fs, st =>
      match pyGetD f "areas" (.jarr []) with
      | none => .error (.typeErr st)
      | some av =>
        match pyIter av with
        | none => .error (.typeErr st)
        | some as_ =>
          match runAreas fails as_ st with
          | .ok st2 => runFloors fails fs st2
          | .error er => .error er

/-- Outcome of one Reconciler invocation: the input text failed to parse (the run
returns before the registry is read, carrying the untouched registry), an exception
was raised mid-traversal (counters and registry as they stood), or normal completion
with the final tally and registry. -/
inductive ImportOutcome : Type where
  | parseError : Registry → ImportOutcome
  | midError : Nat → Nat → Registry → ImportOutcome
  | done : Nat → Nat → Registry → ImportOutcome
deriving Repr

/-- The live registry as it stands when the Reconciler invocation returns. -/
def ImportOutcome.regOut : ImportOutcome → Registry
  | .parseError r => r
  | .midError _ _ r => r
  | .done _ _ r => r

/-- The loop state a traversal step ends in, whether it returned or raised. -/
def exceptSt : Except RunErr St → St
  | .ok s => s
  | .error er => er.st

/-- Frame relation between an entity before and after a Reconciler run: the identity and
every field other than name are unchanged, every namespace of the options other than
DOMAIN is unchanged, and inside the DOMAIN namespace every key other than "labels" is
unchanged. -/
def FrameOk (e e2 : RegEntry) : Prop :=
  e2.entity_id = e.entity_id ∧
  e2.device_id = e.device_id ∧
  e2.disabled_by = e.disabled_by ∧
  e2.unique_id = e.unique_id ∧
  e2.platform = e.platform ∧
  (∀ ns, ns ≠ DOMAIN → alistGet e2.options ns = alistGet e.options ns) ∧
  (∀ k, k ≠ "labels" →
    alistGet ((alistGet e2.options DOMAIN).getD []) k
      = alistGet ((alistGet e.options DOMAIN).getD []) k)

/-- Pointwise frame relation between two registry states. -/
def RegFrame (r r2 : Registry) : Prop :=
  List.Forall₂ FrameOk r r2

/-- handle_import_data after an import_json string was supplied: parsed is the result of
json.loads (none when parsing raised), fails models the update call raising, reg is
the live entity registry. Counters start at zero; the floors value is read with a
default of [] and traversed; any exception inside the traversal ends the run. -/
def importData (parsed : Option JVal) (fails : String → Bool) (reg : Registry) :
    ImportOutcome :=
  match parsed with
  | none => .parseError reg
  | some p =>
    let st0 : St := ⟨0, 0, reg⟩
    match pyGetD p "floors" (.jarr []) with
    | none => .midError st0.applied st0.skipped st0.reg
    | some fv =>
      match pyIter fv with
      | none => .midError st0.applied st0.skipped st0.reg
      | some fs =>
        match runFloors fails fs st0 with
        | .ok st => .done st.applied st.skipped st.reg
        | .error er => .midError er.st.applied er.st.skipped er.st.reg

/-- Total variant of v.get(k, []) used only to count records: any value a successful
run could not have traversed counts as the default. -/
def getDflt (v : JVal) (k : String) : JVal :=
  match v with
  | .jobj kvs => (alistGet kvs k).getD (.jarr [])
  | _ => .jarr []

/-- Total variant of iteration used only to count records. -/
def elemsOf (v : JVal) : List JVal :=
  (pyIter v).getD []

/-- The leaf entity records below one device block. -/
def devLeafs (d : JVal) : List JVal :=
  elemsOf (getDflt d "entities")

/-- The leaf entity records below one area block. -/
def areaLeafs (a : JVal) : List JVal :=
  (elemsOf (getDflt a "devices")).flatMap devLeafs

/-- The leaf entity records below one floor. -/
def floorLeafs (f : JVal) : List JVal :=
  (elemsOf (getDflt f "areas")).flatMap areaLeafs

/-- The leaf entity records of a parsed document, in traversal order
(floors, then areas, then devices, then entities). -/
def leafRecords (p : JVal) : List JVal :=
  (elemsOf (getDflt p "floors")).flatMap floorLeafs

/-- A document with one floor, one area and one device holding the given leaf records. -/
def mkDoc (ents : List JVal) : JVal :=
  .jobj [("floors", .jarr [
    .jobj [("areas", .jarr [
      .jobj [("devices", .jarr [
        .jobj [("entities", .jarr ents)]])]])]])]

/-- A device-registry entry, restricted to the fields gather_ha_data reads. -/
structure Device : Type where
  name : Option String
  manufacturer : Option String
  model : Option String
  area_id : Option String
deriving Repr, DecidableEq

/-- An area-registry entry, restricted to the fields gather_ha_data reads. -/
structure AreaReg : Type where
  name : String
deriving Repr, DecidableEq

/-- The entity projection placed in the document (one element of the entities list
of a device). -/
structure EntityBlock : Type where
  entity_id : String
  name : JVal
  domain : String
  labels : JVal
  disabled : Bool
deriving Repr

/-- The device projection placed in the document. -/
structure DeviceBlock : Type where
  device_id : String
  name : Option String
  manufacturer : Option String
  model : Option String
  entities : List EntityBlock
deriving Repr

/-- One area entry of the document: its id, display name and ordered device blocks. -/
structure AreaBlock : Type where
  area_id : String
  name : String
  devices : List DeviceBlock
deriving Repr

/-- The single synthetic floor of the document. -/
structure FloorBlock : Type where
  floor_id : String
  name : String
  areas : List AreaBlock
deriving Repr

/-- The produced document: export metadata plus the floor list. -/
structure Snapshot : Type where
  generated_by : String
  skip_nameless_devices : Bool
  include_disabled_entities : Bool
  floors : List FloorBlock
deriving Repr

/-- Projection of one registry entry into an EntityBlock: name defaulted to the empty
string when falsy, domain the part of the id before the first dot, labels read from
the DOMAIN namespace of the options (empty list when absent), disabled the truthiness
of disabled_by. -/
def entityBlockOf (e : RegEntry) : EntityBlock :=
  { entity_id := e.entity_id
    name := if pyTruthy e.name then e.name else .jstr ""
    domain := ((e.entity_id.splitOn ".").headD "")
    labels := (alistGet ((alistGet e.options DOMAIN).getD []) "labels").getD (.jarr [])
    disabled := optTruthy e.disabled_by }

/-- The fallback entity resolution for older hosts: a full linear scan of the entity
registry keeping entries whose device reference equals the device, excluding disabled
entries unless include_disabled is set. -/
def fallbackScan (ents : Registry) (devId : String) (includeDisabled : Bool) : Registry :=
  ents.filter fun e => e.device_id == some devId && (includeDisabled || !optTruthy e.disabled_by)

/-- Modelled from the spec: the indexed per-device lookup of the Entity source
(async_entries_for_device), host-platform code not present in this repository —
"entities owned by device X, optionally excluding disabled". -/
def specEntriesForDevice (ents : Registry) (devId : String) (includeDisabled : Bool) :
    Registry :=
  ents.filter fun e => e.device_id == some devId && (includeDisabled || !optTruthy e.disabled_by)

/-- The area index seeded from every known Area in source order, plus the synthetic
"unassigned" entry assigned last. -/
def mkAreaMap (areas : List (String × AreaReg)) : List (String × AreaBlock) :=
  alistSet
    (areas.foldl (fun m p => alistSet m p.1 ⟨p.1, p.2.name, []⟩) [])
    "unassigned" ⟨"unassigned", "Unassigned", []⟩

/-- a_id = device.area_id or "unassigned", redirected to "unassigned" when the key is
not in the area index. -/
def resolveAreaId (m : List (String × AreaBlock)) (dev : Device) : String :=
  let a := match dev.area_id with
    | some s => if s == "" then "unassigned" else s
    | none => "unassigned"
  if (alistGet m a).isSome then a else "unassigned"

/-- The same resolution as a function of the key set only. -/
def resolveKey (keys : List String) (dev : Device) : String :=
  let a := match dev.area_id with
    | some s => if s == "" then "unassigned" else s
    | none => "unassigned"
  if a ∈ keys then a else "unassigned"

/-- area_map[a_id]["devices"].append(db). -/
def appendDevice (m : List (String × AreaBlock)) (aId : String) (db : DeviceBlock) :
    List (String × AreaBlock) :=
  m.map fun p => if p.1 == aId then (p.1, { p.2 with devices := p.2.devices ++ [db] }) else p

/-- The filter of step 2: a device is dropped iff skip_nameless is set and its display
name or manufacturer is falsy. -/
def includedDev (skipNameless : Bool) (dev : Device) : Bool :=
  !(skipNameless && (!optTruthy dev.name || !optTruthy dev.manufacturer))

/-- The device block built for one device from its resolved entity entries. -/
def mkDeviceBlock (devId : String) (dev : Device) (des : Registry) : DeviceBlock :=
  { device_id := devId
    name := dev.name
    manufacturer := dev.manufacturer
    model := dev.model
    entities := des.map entityBlockOf }

/-- One iteration of the device loop of gather_ha_data, with entity resolution by the
fallback linear scan. -/
def gatherStep (ents : Registry) (skipNameless includeDisabled : Bool)
    (m : List (String × AreaBlock)) (p : String × Device) : List (String × AreaBlock) :=
  if includedDev skipNameless p.2 then
    appendDevice m (resolveAreaId m p.2)
      (mkDeviceBlock p.1 p.2 (fallbackScan ents p.1 includeDisabled))
  else m

/-- gather_ha_data with entity resolution by the fallback linear scan: seed the area
index, process every device in source order, then flatten the index into the single
synthetic floor and wrap it with the export metadata. -/
def gather (devices : List (String × Device)) (areas : List (String × AreaReg))
    (ents : Registry) (skipNameless includeDisabled : Bool) : Snapshot :=
  let m := devices.foldl (gatherStep ents skipNameless includeDisabled) (mkAreaMap areas)
  { generated_by := "HA Snapshot"
    skip_nameless_devices := skipNameless
    include_disabled_entities := includeDisabled
    floors := [{ floor_id := "floor_1", name := "Default Floor", areas := m.map (·.2) }] }

/-- Outcome of calling the indexed per-device lookup on the host: the capability is
absent (AttributeError, caught and answered by the fallback scan), the call raises
some other error (propagated), or it returns an entry list. -/
inductive IdxResult : Type where
  | unavailable : IdxResult
  | raises : IdxResult
  | ok : Registry → IdxResult

/-- The device loop of gather_ha_data with the per-device entity resolution performed
through the host capability idx: AttributeError falls back to the linear scan, any
other error aborts the whole export. -/
def gatherDevsIdx (idx : String → IdxResult) (ents : Registry)
    (skipNameless includeDisabled : Bool) :
    List (String × Device) → List (String × AreaBlock) →
    Except Unit (List (String × AreaBlock))
  | [], m => .ok m
  | p :: rest, m =>
    if includedDev skipNameless p.2 then
      let aId := resolveAreaId m p.2
      match idx p.1 with
      | .raises => .error ()
      | .unavailable =>
          gatherDevsIdx idx ents skipNameless includeDisabled rest
            (appendDevice m aId (mkDeviceBlock p.1 p.2 (fallbackScan ents p.1 includeDisabled)))
      | .ok des =>
          gatherDevsIdx idx ents skipNameless includeDisabled rest
            (appendDevice m aId (mkDeviceBlock p.1 p.2 des))
    else gatherDevsIdx idx ents skipNameless includeDisabled rest m

/-- gather_ha_data with the per-device entity resolution performed through the host
capability idx. -/
def gatherIdx (idx : String → IdxResult) (devices : List (String × Device))
    (areas : List (String × AreaReg)) (ents : Registry)
    (skipNameless includeDisabled : Bool) : Except Unit Snapshot :=
  match gatherDevsIdx idx ents skipNameless includeDisabled devices (mkAreaMap areas) with
  | .error e => .error e
  | .ok m => .ok
    { generated_by := "HA Snapshot"
      skip_nameless_devices := skipNameless
      include_disabled_entities := includeDisabled
      floors := [{ floor_id := "floor_1", name := "Default Floor", areas := m.map (·.2) }] }

/-- The number of device blocks carrying a given device id anywhere in the area index. -/
def devCount (m : List (String × AreaBlock)) (d : String) : Nat :=
  (m.flatMap fun p => p.2.devices).countP fun db => db.device_id == d

/-- The number of area blocks of a document floor list containing a block for a given
device id. -/
def areasContaining (abs_ : List AreaBlock) (d : String) : Nat :=
  abs_.countP fun ab => ab.devices.any fun db => db.device_id == d

/-! Concrete inputs used by witnesses and counterexamples. -/

/-- A live entity that already carries the name "Kitchen Light" and the labels list
["Lighting"] under the ha_snapshot namespace, next to a sibling namespace. -/
def exEnt1 : RegEntry := {
  entity_id := "light.kitchen"
  name := .jstr "Kitchen Light"
  options := [("ha_snapshot", [("labels", .jarr [.jstr "Lighting"])]), ("other_ns", [("x", .jnum 3)])]
  device_id := some "d1"
  disabled_by := none
  unique_id := "u1"
  platform := "hue" }

/-- A registry holding exactly exEnt1. -/
def exReg1 : Registry := [exEnt1]

/-- A document with exactly one leaf record repeating the name and labels of exReg1. -/
def exDoc1 : JVal := mkDoc [
  .jobj [("entity_id", .jstr "light.kitchen"), ("name", .jstr "Kitchen Light"),
         ("labels", .jarr [.jstr "Lighting"])]]

/-- A document with two leaf records that are both skipped: an unknown entity id and a
record with no entity id. -/
def exDocSkips : JVal := mkDoc [.jobj [("entity_id", .jstr "sensor.ghost")], .jobj []]

/-- One real area. -/
def exAreas1 : List (String × AreaReg) := [("living", ⟨"Living Room"⟩)]

/-- An area registry whose single real area has the id "unassigned". -/
def exAreasUn : List (String × AreaReg) := [("unassigned", ⟨"Strange"⟩)]

/-- Two devices: a named one and one with no display name. -/
def exDevs2 : List (String × Device) := [
  ("d1", ⟨some "Lamp", some "Acme", some "L1", some "living"⟩),
  ("d2", ⟨none, some "Acme", none, none⟩)]

/-- One named device whose area reference names no known area. -/
def exDevs3 : List (String × Device) := [("d1", ⟨some "Lamp", some "Acme", none, some "ghost"⟩)]

end HaSnapshot

namespace HaSnapshot

/-! Association-list lemmas (Python dict get / assignment / membership). -/

theorem alistGet_alistSet_self {α : Type} (m : List (String × α)) (k : String) (v : α) :
    alistGet (alistSet m k v) k = some v := by
  induction m with
  | nil => simp [alistSet, alistGet]
  | cons p rest ih =>
    by_cases h : p.1 = k
    · simp [alistSet, alistGet, h]
    · simp only [alistSet, alistGet]
      rw [if_neg (by simpa using h)]
      simpa [alistGet, h] using ih

theorem alistGet_alistSet_ne {α : Type} (m : List (String × α)) (k k' : String) (v : α)
    (h : k' ≠ k) : alistGet (alistSet m k v) k' = alistGet m k' := by
  induction m with
  | nil => simp [alistSet, alistGet, Ne.symm h]
  | cons p rest ih =>
    simp only [alistSet]
    by_cases hp : p.1 = k
    · rw [if_pos (by simp [hp])]
      simp only [alistGet]
      rw [if_neg (by simp [Ne.symm h]), if_neg (by simp [hp, Ne.symm h])]
    · rw [if_neg (by simp [hp])]
      simp only [alistGet]
      by_cases hk : p.1 = k'
      · rw [if_pos (by simp [hk]), if_pos (by simp [hk])]
      · rw [if_neg (by simp [hk]), if_neg (by simp [hk])]
        exact ih

theorem alistSet_self {α : Type} (m : List (String × α)) (k : String) (v : α)
    (h : alistGet m k = some v) : alistSet m k v = m := by
  induction m with
  | nil => simp [alistGet] at h
  | cons p rest ih =>
    by_cases hp : p.1 = k
    · subst hp
      simp only [alistGet] at h
      rw [if_pos (by simp)] at h
      obtain rfl : p.2 = v := Option.some.inj h
      simp only [alistSet]
      rw [if_pos (by simp)]
    · simp only [alistGet] at h
      rw [if_neg (by simp [hp])] at h
      simp only [alistSet]
      rw [if_neg (by simp [hp])]
      rw [ih h]

theorem alistGet_alistErase_self {α : Type} (m : List (String × α)) (k : String) :
    alistGet (alistErase m k) k = none := by
  induction m with
  | nil => simp [alistErase, alistGet]
  | cons p rest ih =>
    by_cases hp : p.1 = k
    · simpa [alistErase, hp] using ih
    · simp only [alistErase]
      rw [if_neg (by simpa using hp)]
      simpa [alistGet, hp] using ih

theorem alistSet_map_fst_of_mem {α : Type} (m : List (String × α)) (k : String) (v : α)
    (h : k ∈ m.map Prod.fst) : (alistSet m k v).map Prod.fst = m.map Prod.fst := by
  induction m with
  | nil => simp at h
  | cons p rest ih =>
    by_cases hp : p.1 = k
    · simp [alistSet, hp]
    · simp only [List.map_cons, List.mem_cons] at h
      rcases h with h | h
      · exact absurd h.symm hp
      · simp only [alistSet]
        rw [if_neg (by simpa using hp)]
        simp [ih h]

theorem alistSet_map_fst_of_not_mem {α : Type} (m : List (String × α)) (k : String) (v : α)
    (h : k ∉ m.map Prod.fst) : (alistSet m k v).map Prod.fst = m.map Prod.fst ++ [k] := by
  induction m with
  | nil => simp [alistSet]
  | cons p rest ih =>
    simp only [List.map_cons, List.mem_cons, not_or] at h
    simp only [alistSet]
    rw [if_neg (by simpa using fun hh : p.1 = k => h.1 hh.symm)]
    simp [ih h.2]

/-! Reflexivity of the structural JSON equality. -/

mutual

theorem JVal.beq_refl : ∀ v : JVal, JVal.beq v v = true
  | .jnull => rfl
  | .jbool b => by simp [JVal.beq]
  | .jnum n => by simp [JVal.beq]
  | .jstr s => by simp [JVal.beq]
  | .jarr xs => by simpa [JVal.beq] using JVal.beqList_refl xs
  | .jobj kvs => by simpa [JVal.beq] using JVal.beqObj_refl kvs

theorem JVal.beqList_refl : ∀ xs : List JVal, JVal.beqList xs xs = true
  | [] => rfl
  | x :: xs => by simp [JVal.beqList, JVal.beq_refl x, JVal.beqList_refl xs]

theorem JVal.beqObj_refl : ∀ kvs : List (String × JVal), JVal.beqObj kvs kvs = true
  | [] => rfl
  | (k, v) :: kvs => by simp [JVal.beqObj, JVal.beq_refl v, JVal.beqObj_refl kvs]

end

/-- C5: if the import text fails to parse, the Reconciler returns a terminal parse
error before reading or writing the registry: the outcome carries the registry
exactly as it was and no applied/skipped tally (both counters still at their
initial zero). -/
theorem claim_C5_parse_failure (fails : String → Bool) (reg : Registry) :
    importData none fails reg = .parseError reg := rfl

/-- C10: a leaf record whose entity_id field is present but falsy is treated exactly
like a record with no entity_id field: counted skipped, the state otherwise unchanged,
with no registry lookup or update. -/
theorem claim_C10_falsy_entity_id (fails : String → Bool) (kvs : List (String × JVal))
    (v : JVal) (st : St) (h1 : alistGet kvs "entity_id" = some v)
    (h2 : pyTruthy v = false) :
    processEnt fails (.jobj kvs) st = .ok { st with skipped := st.skipped + 1 } ∧
    processEnt fails (.jobj (alistErase kvs "entity_id")) st
      = .ok { st with skipped := st.skipped + 1 } := by
  constructor
  · simp [processEnt, h1, h2]
  · simp [processEnt, alistGet_alistErase_self, pyTruthy]

/-- Witness for C10 at a record carrying entity_id equal to the empty string. -/
theorem claim_C10_witness :
    processEnt (fun _ => false)
      (.jobj [("entity_id", .jstr ""), ("name", .jstr "X")]) ⟨0, 0, exReg1⟩
      = .ok ⟨0, 1, exReg1⟩ ∧
    processEnt (fun _ => false)
      (.jobj (alistErase [("entity_id", .jstr ""), ("name", .jstr "X")] "entity_id"))
      ⟨0, 0, exReg1⟩
      = .ok ⟨0, 1, exReg1⟩ :=
  claim_C10_falsy_entity_id (fun _ => false)
    [("entity_id", .jstr ""), ("name", .jstr "X")] (.jstr "") ⟨0, 0, exReg1⟩ rfl rfl

/-- Staging labels that are already stored verbatim rebuilds the same options mapping. -/
theorem stageOpts_self (opts : List (String × List (String × JVal))) (lb : JVal)
    (h : alistGet ((alistGet opts DOMAIN).getD []) "labels" = some lb) :
    stageOpts opts lb = opts := by
  unfold stageOpts
  cases hopt : alistGet opts DOMAIN with
  | none => rw [hopt] at h; simp [alistGet] at h
  | some inner =>
    rw [hopt] at h
    simp only [Option.getD_some] at h ⊢
    rw [alistSet_self inner "labels" lb h]
    exact alistSet_self opts DOMAIN inner hopt

/-- Applying a labels-only update whose staged options equal the current options of the
matched entity leaves the registry unchanged. -/
theorem updateFirst_labels_noop (reg : Registry) (i : String) (v : JVal) (f : RegEntry)
    (hfind : reg.find? (fun e => e.entity_id == i) = some f)
    (hopts : stageOpts f.options v = f.options) :
    updateFirst reg i none (some v) = reg := by
  induction reg with
  | nil => simp at hfind
  | cons e rest ih =>
    by_cases he : (e.entity_id == i) = true
    · simp only [List.find?_cons, he] at hfind
      obtain rfl : e = f := by simpa using hfind
      unfold updateFirst
      rw [if_pos he]
      simp [hopts]
    · have he' : (e.entity_id == i) = false := by simpa using he
      simp only [List.find?_cons, he'] at hfind
      unfold updateFirst
      rw [if_neg he]
      rw [ih hfind]

/-- Running the Reconciler on a single-floor single-area single-device document reduces
to the leaf loop over its entity records. -/
theorem importData_mkDoc (fails : String → Bool) (l : List JVal) (reg : Registry) :
    importData (some (mkDoc l)) fails reg =
      match runEnts fails l ⟨0, 0, reg⟩ with
      | .ok st => .done st.applied st.skipped st.reg
      | .error er => .midError er.st.applied er.st.skipped er.st.reg := by
  cases hr : runEnts fails l ⟨0, 0, reg⟩ with
  | ok st =>
      simp [importData, mkDoc, pyGetD, alistGet, pyIter, runFloors, runAreas, runDevs, hr]
  | error er =>
      simp [importData, mkDoc, pyGetD, alistGet, pyIter, runFloors, runAreas, runDevs, hr]

/-- C1 fails on the code: a document whose single leaf record repeats the live name and
the live non-empty labels verbatim is still counted applied (the labels update is
restaged unconditionally), so the tally is applied 1 / skipped 0, not 0 / 1. -/
theorem claim_C1_counterexample :
    importData (some exDoc1) (fun _ => false) exReg1 = .done 1 0 exReg1 ∧
    importData (some exDoc1) (fun _ => false) exReg1 ≠ .done 0 1 exReg1 := by
  have hrun : importData (some exDoc1) (fun _ => false) exReg1 = .done 1 0 exReg1 := rfl
  refine ⟨hrun, fun h => ?_⟩
  rw [hrun] at h
  simp at h

/-- C1 amended: when the single leaf record matches a live entity and repeats its
current name and its currently stored non-empty labels verbatim, the run counts it
applied (changes_applied = 1, changes_skipped = 0); the combined update restages the
identical labels, leaving the registry unchanged. -/
theorem claim_C1_amended (fails : String → Bool) (reg : Registry) (f : RegEntry)
    (i nm : String) (ls : List JVal)
    (hi : i ≠ "")
    (hfind : reg.find? (fun e => e.entity_id == i) = some f)
    (hname : f.name = .jstr nm)
    (hls : ls ≠ [])
    (hstored : alistGet ((alistGet f.options DOMAIN).getD []) "labels" = some (.jarr ls))
    (hok : fails i = false) :
    importData (some (mkDoc [.jobj [("entity_id", .jstr i), ("name", .jstr nm),
      ("labels", .jarr ls)]])) fails reg = .done 1 0 reg := by
  have hlsE : ls.isEmpty = false := by
    cases ls
    · exact absurd rfl hls
    · rfl
  have hup : updateFirst reg i none (some (.jarr ls)) = reg :=
    updateFirst_labels_noop reg i (.jarr ls) f hfind
      (stageOpts_self f.options (.jarr ls) hstored)
  have hbeq : JVal.beq (.jstr nm) f.name = true := by
    rw [hname]; exact JVal.beq_refl (.jstr nm)
  rw [importData_mkDoc]
  simp [runEnts, processEnt, alistGet, pyTruthy, lookupEntity, hi, hfind, hbeq,
    JVal.isArr, hlsE, hok, hup]

/-- Witness for the amended C1 at the concrete kitchen-light scenario. -/
theorem claim_C1_amended_witness :
    importData (some exDoc1) (fun _ => false) exReg1 = .done 1 0 exReg1 :=
  claim_C1_amended (fun _ => false) exReg1 exEnt1 "light.kitchen" "Kitchen Light"
    [.jstr "Lighting"] (by decide) rfl rfl (List.cons_ne_nil _ _) rfl rfl

/-! Tally lemmas: every successfully processed leaf record increments exactly one of
the two counters. -/

theorem processEnt_ok_sum (fails : String → Bool) (ent : JVal) (st st2 : St)
    (h : processEnt fails ent st = .ok st2) :
    st2.applied + st2.skipped = st.applied + st.skipped + 1 := by
  cases ent with
  | jobj kvs =>
    simp only [processEnt] at h
    repeat' split at h
    all_goals first
      | exact Except.noConfusion h
      | (cases h; simp; omega)
  | jnull => simp [processEnt] at h
  | jbool b => simp [processEnt] at h
  | jnum n => simp [processEnt] at h
  | jstr s => simp [processEnt] at h
  | jarr xs => simp [processEnt] at h

theorem runEnts_ok_sum (fails : String → Bool) (l : List JVal) (st st2 : St)
    (h : runEnts fails l st = .ok st2) :
    st2.applied + st2.skipped = st.applied + st.skipped + l.length := by
  induction l generalizing st with
  | nil =>
    simp only [runEnts] at h
    cases h
    simp
  | cons e es ih =>
    unfold runEnts at h
    cases hp : processEnt fails e st with
    | error er => rw [hp] at h; exact Except.noConfusion h
    | ok stm =>
      rw [hp] at h
      have h1 := processEnt_ok_sum fails e st stm hp
      have h2 := ih stm h
      simp only [List.length_cons]
      omega

theorem pyGetD_getDflt (v : JVal) (k : String) (w : JVal)
    (h : pyGetD v k (.jarr []) = some w) : getDflt v k = w := by
  cases v <;> simp [pyGetD, getDflt] at h ⊢ <;> exact h

theorem runDevs_ok_sum (fails : String → Bool) (ds : List JVal) (st st2 : St)
    (h : runDevs fails ds st = .ok st2) :
    st2.applied + st2.skipped = st.applied + st.skipped + (ds.flatMap devLeafs).length := by
  induction ds generalizing st with
  | nil =>
    simp only [runDevs] at h
    cases h
    simp
  | cons d ds ih =>
    unfold runDevs at h
    cases hg : pyGetD d "entities" (.jarr []) with
    | none => rw [hg] at h; exact Except.noConfusion h
    | some ev =>
      simp only [hg] at h
      cases hit : pyIter ev with
      | none => simp only [hit] at h; exact Except.noConfusion h
      | some es =>
        simp only [hit] at h
        cases hr : runEnts fails es st with
        | error er => simp only [hr] at h; exact Except.noConfusion h
        | ok stm =>
          simp only [hr] at h
          have h1 := runEnts_ok_sum fails es st stm hr
          have h2 := ih stm h
          have hdl : devLeafs d = es := by
            rw [devLeafs, pyGetD_getDflt d "entities" ev hg, elemsOf, hit]
            rfl
          simp only [List.flatMap_cons, List.length_append, hdl]
          omega

theorem runAreas_ok_sum (fails : String → Bool) (as_ : List JVal) (st st2 : St)
    (h : runAreas fails as_ st = .ok st2) :
    st2.applied + st2.skipped = st.applied + st.skipped + (as_.flatMap areaLeafs).length := by
  induction as_ generalizing st with
  | nil =>
    simp only [runAreas] at h
    cases h
    simp
  | cons a rest ih =>
    unfold runAreas at h
    cases hg : pyGetD a "devices" (.jarr []) with
    | none => rw [hg] at h; exact Except.noConfusion h
    | some dv =>
      simp only [hg] at h
      cases hit : pyIter dv with
      | none => simp only [hit] at h; exact Except.noConfusion h
      | some ds =>
        simp only [hit] at h
        cases hr : runDevs fails ds st with
        | error er => simp only [hr] at h; exact Except.noConfusion h
        | ok stm =>
          simp only [hr] at h
          have h1 := runDevs_ok_sum fails ds st stm hr
          have h2 := ih stm h
          have hdl : areaLeafs a = ds.flatMap devLeafs := by
            rw [areaLeafs, pyGetD_getDflt a "devices" dv hg, elemsOf, hit]
            rfl
          simp only [List.flatMap_cons, List.length_append, hdl]
          omega

theorem runFloors_ok_sum (fails : String → Bool) (fs : List JVal) (st st2 : St)
    (h : runFloors fails fs st = .ok st2) :
    st2.applied + st2.skipped = st.applied + st.skipped + (fs.flatMap floorLeafs).length := by
  induction fs generalizing st with
  | nil =>
    simp only [runFloors] at h
    cases h
    simp
  | cons f rest ih =>
    unfold runFloors at h
    cases hg : pyGetD f "areas" (.jarr []) with
    | none => rw [hg] at h; exact Except.noConfusion h
    | some av =>
      simp only [hg] at h
      cases hit : pyIter av with
      | none => simp only [hit] at h; exact Except.noConfusion h
      | some as_ =>
        simp only [hit] at h
        cases hr : runAreas fails as_ st with
        | error er => simp only [hr] at h; exact Except.noConfusion h
        | ok stm =>
          simp only [hr] at h
          have h1 := runAreas_ok_sum fails as_ st stm hr
          have h2 := ih stm h
          have hdl : floorLeafs f = as_.flatMap areaLeafs := by
            rw [floorLeafs, pyGetD_getDflt f "areas" av hg, elemsOf, hit]
            rfl
          simp only [List.flatMap_cons, List.length_append, hdl]
          omega

/-- C4: when the Reconciler completes a run without a mid-traversal error, the tally
changes_applied + changes_skipped equals the total number of leaf entity records of
the document. -/
theorem claim_C4_tally (parsed : JVal) (fails : String → Bool) (reg : Registry)
    (a s : Nat) (reg2 : Registry)
    (h : importData (some parsed) fails reg = .done a s reg2) :
    a + s = (leafRecords parsed).length := by
  simp only [importData] at h
  cases hg : pyGetD parsed "floors" (.jarr []) with
  | none => simp only [hg] at h; exact ImportOutcome.noConfusion h
  | some fv =>
    simp only [hg] at h
    cases hit : pyIter fv with
    | none => simp only [hit] at h; exact ImportOutcome.noConfusion h
    | some fs =>
      simp only [hit] at h
      cases hr : runFloors fails fs ⟨0, 0, reg⟩ with
      | error er => simp only [hr] at h; exact ImportOutcome.noConfusion h
      | ok st =>
        simp only [hr] at h
        obtain ⟨ha, hs, _⟩ : a = st.applied ∧ s = st.skipped ∧ reg2 = st.reg := by
          cases h; exact ⟨rfl, rfl, rfl⟩
        have hsum := runFloors_ok_sum fails fs ⟨0, 0, reg⟩ st hr
        have hlr : leafRecords parsed = fs.flatMap floorLeafs := by
          rw [leafRecords, pyGetD_getDflt parsed "floors" fv hg, elemsOf, hit]
          rfl
        rw [ha, hs, hlr]
        simpa using hsum

/-- Witness for C4 at a two-record document where both records are skipped. -/
theorem claim_C4_witness : 0 + 2 = (leafRecords exDocSkips).length :=
  claim_C4_tally exDocSkips (fun _ => false) exReg1 0 2 exReg1 rfl

/-! Mid-traversal failure: processing a record list splits around the first error. -/

theorem runEnts_append (fails : String → Bool) (l1 l2 : List JVal) (st : St) :
    runEnts fails (l1 ++ l2) st =
      match runEnts fails l1 st with
      | .ok st2 => runEnts fails l2 st2
      | .error er => .error er := by
  induction l1 generalizing st with
  | nil => simp [runEnts]
  | cons e es ih =>
    simp only [List.cons_append, runEnts]
    cases processEnt fails e st with
    | ok st2 => exact ih st2
    | error er => rfl

/-- C6: if applying the staged update for a leaf record raises, the Reconciler stops
at that record: the outcome is a terminal error whose tally and registry are exactly
those reached after the earlier records (updates already applied are kept), and the
records after the failing one are never examined (the outcome does not depend on
them). -/
theorem claim_C6_mid_failure (fails : String → Bool) (l1 : List JVal) (r : JVal)
    (l2 : List JVal) (reg : Registry) (st1 : St)
    (h1 : runEnts fails l1 ⟨0, 0, reg⟩ = .ok st1)
    (h2 : processEnt fails r st1 = .error (.updateErr st1)) :
    importData (some (mkDoc (l1 ++ r :: l2))) fails reg
      = .midError st1.applied st1.skipped st1.reg := by
  rw [importData_mkDoc, runEnts_append, h1]
  simp only [runEnts]
  rw [h2]
  simp [RunErr.st]

/-- Witness for C6: the update for the second record raises; the first record was already
tallied, the third is never reached. -/
theorem claim_C6_witness :
    importData (some (mkDoc ([.jobj [("entity_id", .jstr "sensor.ghost")]] ++
        .jobj [("entity_id", .jstr "light.kitchen"), ("name", .jstr "New Name")] ::
        [.jobj [("entity_id", .jstr "light.kitchen"), ("name", .jstr "Other")]])))
      (fun s => s == "light.kitchen") exReg1
      = .midError 0 1 exReg1 :=
  claim_C6_mid_failure (fun s => s == "light.kitchen")
    [.jobj [("entity_id", .jstr "sensor.ghost")]]
    (.jobj [("entity_id", .jstr "light.kitchen"), ("name", .jstr "New Name")])
    [.jobj [("entity_id", .jstr "light.kitchen"), ("name", .jstr "Other")]]
    exReg1 ⟨0, 1, exReg1⟩ rfl rfl

/-! Frame lemmas: a Reconciler run never adds or removes an entity identity and only
ever changes an entity name and the labels key of the DOMAIN namespace. -/

theorem frameOk_refl (e : RegEntry) : FrameOk e e :=
  ⟨rfl, rfl, rfl, rfl, rfl, fun _ _ => rfl, fun _ _ => rfl⟩

theorem frameOk_trans {a b c : RegEntry} (h1 : FrameOk a b) (h2 : FrameOk b c) :
    FrameOk a c := by
  obtain ⟨i1, d1, db1, u1, p1, o1, l1⟩ := h1
  obtain ⟨i2, d2, db2, u2, p2, o2, l2⟩ := h2
  exact ⟨i2.trans i1, d2.trans d1, db2.trans db1, u2.trans u1, p2.trans p1,
    fun ns h => (o2 ns h).trans (o1 ns h), fun k h => (l2 k h).trans (l1 k h)⟩

theorem regFrame_refl (r : Registry) : RegFrame r r :=
  List.forall₂_same.mpr fun e _ => frameOk_refl e

theorem regFrame_trans {a b c : Registry} (h1 : RegFrame a b) (h2 : RegFrame b c) :
    RegFrame a c := by
  induction h1 generalizing c with
  | nil => cases h2; exact List.Forall₂.nil
  | cons hab _ ih =>
    cases h2 with
    | cons hbc hrest2 => exact List.Forall₂.cons (frameOk_trans hab hbc) (ih hrest2)

theorem regFrame_keys {a b : Registry} (h : RegFrame a b) :
    b.map (fun e => e.entity_id) = a.map (fun e => e.entity_id) := by
  induction h with
  | nil => rfl
  | cons hab _ ih => simp [ih, hab.1]

theorem stageOpts_frame (opts : List (String × List (String × JVal))) (v : JVal) :
    (∀ ns, ns ≠ DOMAIN → alistGet (stageOpts opts v) ns = alistGet opts ns) ∧
    (∀ k, k ≠ "labels" →
      alistGet ((alistGet (stageOpts opts v) DOMAIN).getD []) k
        = alistGet ((alistGet opts DOMAIN).getD []) k) := by
  constructor
  · intro ns hns
    exact alistGet_alistSet_ne _ _ _ _ hns
  · intro k hk
    rw [stageOpts, alistGet_alistSet_self]
    simp only [Option.getD_some]
    exact alistGet_alistSet_ne _ _ _ _ hk

theorem updateFirst_frame (reg : Registry) (i : String) (nm lb : Option JVal) :
    RegFrame reg (updateFirst reg i nm lb) := by
  induction reg with
  | nil => exact List.Forall₂.nil
  | cons e rest ih =>
    unfold updateFirst
    by_cases he : (e.entity_id == i) = true
    · rw [if_pos he]
      refine List.Forall₂.cons ?_ (regFrame_refl rest)
      cases lb with
      | none => exact ⟨rfl, rfl, rfl, rfl, rfl, fun _ _ => rfl, fun _ _ => rfl⟩
      | some v =>
        exact ⟨rfl, rfl, rfl, rfl, rfl, (stageOpts_frame e.options v).1,
          (stageOpts_frame e.options v).2⟩
    · rw [if_neg he]
      exact List.Forall₂.cons (frameOk_refl e) ih

theorem processEnt_frame (fails : String → Bool) (ent : JVal) (st : St) :
    RegFrame st.reg (exceptSt (processEnt fails ent st)).reg := by
  cases ent with
  | jobj kvs =>
    simp only [processEnt]
    repeat' split
    all_goals simp only [exceptSt, RunErr.st]
    all_goals first
      | exact regFrame_refl _
      | exact updateFirst_frame _ _ _ _
  | jnull => exact regFrame_refl _
  | jbool b => exact regFrame_refl _
  | jnum n => exact regFrame_refl _
  | jstr s => exact regFrame_refl _
  | jarr xs => exact regFrame_refl _

theorem runEnts_frame (fails : String → Bool) (l : List JVal) (st : St) :
    RegFrame st.reg (exceptSt (runEnts fails l st)).reg := by
  induction l generalizing st with
  | nil => exact regFrame_refl _
  | cons e es ih =>
    simp only [runEnts]
    cases hp : processEnt fails e st with
    | ok st2 =>
      have h1 : RegFrame st.reg st2.reg := by
        have := processEnt_frame fails e st
        rwa [hp] at this
      exact regFrame_trans h1 (ih st2)
    | error er =>
      have := processEnt_frame fails e st
      rwa [hp] at this

theorem runDevs_frame (fails : String → Bool) (ds : List JVal) (st : St) :
    RegFrame st.reg (exceptSt (runDevs fails ds st)).reg := by
  induction ds generalizing st with
  | nil => exact regFrame_refl _
  | cons d rest ih =>
    cases hg : pyGetD d "entities" (.jarr []) with
    | none => simp only [runDevs, hg]; exact regFrame_refl _
    | some ev =>
      cases hit : pyIter ev with
      | none => simp only [runDevs, hg, hit]; exact regFrame_refl _
      | some es =>
        cases hr : runEnts fails es st with
        | ok st2 =>
          simp only [runDevs, hg, hit, hr]
          have h1 : RegFrame st.reg st2.reg := by
            have := runEnts_frame fails es st
            rwa [hr] at this
          exact regFrame_trans h1 (ih st2)
        | error er =>
          simp only [runDevs, hg, hit, hr]
          have := runEnts_frame fails es st
          rwa [hr] at this

theorem runAreas_frame (fails : String → Bool) (as_ : List JVal) (st : St) :
    RegFrame st.reg (exceptSt (runAreas fails as_ st)).reg := by
  induction as_ generalizing st with
  | nil => exact regFrame_refl _
  | cons a rest ih =>
    cases hg : pyGetD a "devices" (.jarr []) with
    | none => simp only [runAreas, hg]; exact regFrame_refl _
    | some dv =>
      cases hit : pyIter dv with
      | none => simp only [runAreas, hg, hit]; exact regFrame_refl _
      | some ds =>
        cases hr : runDevs fails ds st with
        | ok st2 =>
          simp only [runAreas, hg, hit, hr]
          have h1 : RegFrame st.reg st2.reg := by
            have := runDevs_frame fails ds st
            rwa [hr] at this
          exact regFrame_trans h1 (ih st2)
        | error er =>
          simp only [runAreas, hg, hit, hr]
          have := runDevs_frame fails ds st
          rwa [hr] at this

theorem runFloors_frame (fails : String → Bool) (fs : List JVal) (st : St) :
    RegFrame st.reg (exceptSt (runFloors fails fs st)).reg := by
  induction fs generalizing st with
  | nil => exact regFrame_refl _
  | cons f rest ih =>
    cases hg : pyGetD f "areas" (.jarr []) with
    | none => simp only [runFloors, hg]; exact regFrame_refl _
    | some av =>
      cases hit : pyIter av with
      | none => simp only [runFloors, hg, hit]; exact regFrame_refl _
      | some as_ =>
        cases hr : runAreas fails as_ st with
        | ok st2 =>
          simp only [runFloors, hg, hit, hr]
          have h1 : RegFrame st.reg st2.reg := by
            have := runAreas_frame fails as_ st
            rwa [hr] at this
          exact regFrame_trans h1 (ih st2)
        | error er =>
          simp only [runFloors, hg, hit, hr]
          have := runAreas_frame fails as_ st
          rwa [hr] at this

/-- C3: a Reconciler run never adds or removes an entity identity — the id sequence of
the registry is unchanged whatever the outcome — and each entity is only ever changed
in its name and in the labels key of the DOMAIN namespace of this system: every other
field, every sibling namespace key, and every other key inside the DOMAIN namespace
is preserved. -/
theorem claim_C3_frame (parsed : Option JVal) (fails : String → Bool) (reg : Registry) :
    (importData parsed fails reg).regOut.map (fun e => e.entity_id)
        = reg.map (fun e => e.entity_id) ∧
    RegFrame reg (importData parsed fails reg).regOut := by
  have hmain : RegFrame reg (importData parsed fails reg).regOut := by
    cases parsed with
    | none => exact regFrame_refl _
    | some p =>
      cases hg : pyGetD p "floors" (.jarr []) with
      | none =>
        simp only [importData, hg, ImportOutcome.regOut]
        exact regFrame_refl _
      | some fv =>
        cases hit : pyIter fv with
        | none =>
          simp only [importData, hg, hit, ImportOutcome.regOut]
          exact regFrame_refl _
        | some fs =>
          cases hr : runFloors fails fs ⟨0, 0, reg⟩ with
          | ok st =>
            simp only [importData, hg, hit, hr, ImportOutcome.regOut]
            have := runFloors_frame fails fs ⟨0, 0, reg⟩
            rwa [hr] at this
          | error er =>
            simp only [importData, hg, hit, hr, ImportOutcome.regOut]
            have := runFloors_frame fails fs ⟨0, 0, reg⟩
            rwa [hr] at this
  exact ⟨regFrame_keys hmain, hmain⟩

/-! Builder lemmas: keys and block shape of the area index. -/

theorem alistGet_isSome_iff {α : Type} (m : List (String × α)) (k : String) :
    (alistGet m k).isSome = true ↔ k ∈ m.map Prod.fst := by
  induction m with
  | nil => simp [alistGet]
  | cons p rest ih =>
    simp only [alistGet, List.map_cons, List.mem_cons]
    by_cases hp : p.1 = k
    · rw [if_pos (by simp [hp])]
      simp [hp]
    · rw [if_neg (by simp [hp]), ih]
      constructor
      · exact fun h => Or.inr h
      · rintro (h | h)
        · exact absurd h.symm hp
        · exact h

theorem alistSet_mem_key {α : Type} (m : List (String × α)) (k : String) (v : α) :
    k ∈ (alistSet m k v).map Prod.fst := by
  induction m with
  | nil => simp [alistSet]
  | cons p rest ih =>
    by_cases hp : p.1 = k
    · simp [alistSet, hp]
    · simp only [alistSet]
      rw [if_neg (by simp [hp])]
      simp [ih]

theorem alistSet_keys_nodup {α : Type} (m : List (String × α)) (k : String) (v : α)
    (h : (m.map Prod.fst).Nodup) : ((alistSet m k v).map Prod.fst).Nodup := by
  by_cases hk : k ∈ m.map Prod.fst
  · rw [alistSet_map_fst_of_mem m k v hk]; exact h
  · rw [alistSet_map_fst_of_not_mem m k v hk]
    exact h.append (List.nodup_singleton _)
      (fun a ha hb => hk ((List.mem_singleton.mp hb) ▸ ha))

theorem alistSet_keys_subset {α : Type} (m : List (String × α)) (k k' : String) (v : α)
    (h : k' ∈ (alistSet m k v).map Prod.fst) : k' ∈ m.map Prod.fst ∨ k' = k := by
  by_cases hk : k ∈ m.map Prod.fst
  · rw [alistSet_map_fst_of_mem m k v hk] at h; exact .inl h
  · rw [alistSet_map_fst_of_not_mem m k v hk] at h
    simpa using h

theorem alistSet_mem_prop {α : Type} (m : List (String × α)) (k : String) (v : α)
    (P : String × α → Prop) (hm : ∀ p ∈ m, P p) (hv : P (k, v)) :
    ∀ p ∈ alistSet m k v, P p := by
  induction m with
  | nil => simpa [alistSet] using hv
  | cons q rest ih =>
    intro p hp
    by_cases hq : q.1 = k
    · simp only [alistSet] at hp
      rw [if_pos (by simp [hq])] at hp
      rcases List.mem_cons.mp hp with h | h
      · exact h ▸ hv
      · exact hm p (List.mem_cons_of_mem q h)
    · simp only [alistSet] at hp
      rw [if_neg (by simp [hq])] at hp
      rcases List.mem_cons.mp hp with h | h
      · exact h ▸ hm q (List.mem_cons_self q rest)
      · exact ih (fun r hr => hm r (List.mem_cons_of_mem q hr)) p h

theorem appendDevice_map_fst (m : List (String × AreaBlock)) (aId : String)
    (db : DeviceBlock) : (appendDevice m aId db).map Prod.fst = m.map Prod.fst := by
  induction m with
  | nil => rfl
  | cons p rest ih =>
    simp only [appendDevice, List.map_cons] at ih ⊢
    by_cases h : (p.1 == aId) = true
    · simp only [if_pos h]
      simpa using ih
    · simp only [if_neg h]
      simpa using ih

theorem appendDevice_of_not_mem (m : List (String × AreaBlock)) (aId : String)
    (db : DeviceBlock) (h : aId ∉ m.map Prod.fst) : appendDevice m aId db = m := by
  induction m with
  | nil => rfl
  | cons p rest ih =>
    simp only [List.map_cons, List.mem_cons, not_or] at h
    unfold appendDevice at ih ⊢
    rw [List.map_cons]
    rw [if_neg (by simp only [beq_iff_eq]; exact fun hh => h.1 hh.symm)]
    rw [ih h.2]

theorem appendDevice_mem (m : List (String × AreaBlock)) (aId : String) (db : DeviceBlock)
    (p : String × AreaBlock) (hp : p ∈ appendDevice m aId db) :
    ∃ q ∈ m, p.1 = q.1 ∧ p.2.area_id = q.2.area_id ∧
      (p.2.devices = q.2.devices ∨ (p.2.devices = q.2.devices ++ [db] ∧ p.1 = aId)) := by
  obtain ⟨q, hq, hpq⟩ := List.mem_map.mp hp
  refine ⟨q, hq, ?_⟩
  by_cases h : (q.1 == aId) = true
  · rw [if_pos h] at hpq
    subst hpq
    exact ⟨rfl, rfl, .inr ⟨rfl, by simpa using h⟩⟩
  · rw [if_neg h] at hpq
    subst hpq
    exact ⟨rfl, rfl, .inl rfl⟩

theorem resolveAreaId_eq_key (m : List (String × AreaBlock)) (dev : Device) :
    resolveAreaId m dev = resolveKey (m.map Prod.fst) dev := by
  unfold resolveAreaId resolveKey
  by_cases h : (alistGet m (match dev.area_id with
    | some s => if s == "" then "unassigned" else s
    | none => "unassigned")).isSome = true
  · rw [if_pos h, if_pos ((alistGet_isSome_iff _ _).mp h)]
  · rw [if_neg h, if_neg (fun hm => h ((alistGet_isSome_iff _ _).mpr hm))]

theorem resolveKey_mem (keys : List String) (dev : Device)
    (hu : "unassigned" ∈ keys) : resolveKey keys dev ∈ keys := by
  unfold resolveKey
  by_cases h : (match dev.area_id with
    | some s => if s == "" then "unassigned" else s
    | none => "unassigned") ∈ keys
  · rw [if_pos h]; exact h
  · rw [if_neg h]; exact hu

theorem mkAreaMap_unassigned_mem (areas : List (String × AreaReg)) :
    "unassigned" ∈ (mkAreaMap areas).map Prod.fst :=
  alistSet_mem_key _ _ _

theorem mkAreaMap_area_id (areas : List (String × AreaReg)) :
    ∀ p ∈ mkAreaMap areas, p.2.area_id = p.1 := by
  unfold mkAreaMap
  apply alistSet_mem_prop
  · have hgen : ∀ (l : List (String × AreaReg)) (acc : List (String × AreaBlock)),
        (∀ p ∈ acc, p.2.area_id = p.1) →
        ∀ p ∈ l.foldl (fun m p => alistSet m p.1 ⟨p.1, p.2.name, []⟩) acc, p.2.area_id = p.1 := by
      intro l
      induction l with
      | nil => intro acc hacc; exact hacc
      | cons q rest ih =>
        intro acc hacc
        exact ih _ (alistSet_mem_prop acc q.1 ⟨q.1, q.2.name, []⟩ _ hacc rfl)
    exact hgen areas [] (by simp)
  · rfl

theorem mkAreaMap_devices_nil (areas : List (String × AreaReg)) :
    ∀ p ∈ mkAreaMap areas, p.2.devices = [] := by
  unfold mkAreaMap
  apply alistSet_mem_prop
  · have hgen : ∀ (l : List (String × AreaReg)) (acc : List (String × AreaBlock)),
        (∀ p ∈ acc, p.2.devices = []) →
        ∀ p ∈ l.foldl (fun m p => alistSet m p.1 ⟨p.1, p.2.name, []⟩) acc, p.2.devices = [] := by
      intro l
      induction l with
      | nil => intro acc hacc; exact hacc
      | cons q rest ih =>
        intro acc hacc
        exact ih _ (alistSet_mem_prop acc q.1 ⟨q.1, q.2.name, []⟩ _ hacc rfl)
    exact hgen areas [] (by simp)
  · rfl

theorem mkAreaMap_keys_nodup (areas : List (String × AreaReg)) :
    ((mkAreaMap areas).map Prod.fst).Nodup := by
  unfold mkAreaMap
  apply alistSet_keys_nodup
  have hgen : ∀ (l : List (String × AreaReg)) (acc : List (String × AreaBlock)),
      ((acc.map Prod.fst).Nodup) →
      (((l.foldl (fun m p => alistSet m p.1 ⟨p.1, p.2.name, []⟩) acc).map Prod.fst).Nodup) := by
    intro l
    induction l with
    | nil => intro acc hacc; exact hacc
    | cons q rest ih =>
      intro acc hacc
      exact ih _ (alistSet_keys_nodup acc q.1 _ hacc)
  exact hgen areas [] (by simp)

theorem mkAreaMap_keys_subset (areas : List (String × AreaReg)) (k : String)
    (h : k ∈ (mkAreaMap areas).map Prod.fst) :
    k ∈ areas.map Prod.fst ∨ k = "unassigned" := by
  unfold mkAreaMap at h
  rcases alistSet_keys_subset _ _ _ _ h with h2 | h2
  · left
    have hgen : ∀ (l : List (String × AreaReg)) (acc : List (String × AreaBlock)),
        k ∈ ((l.foldl (fun m p => alistSet m p.1 ⟨p.1, p.2.name, []⟩) acc).map Prod.fst) →
        k ∈ acc.map Prod.fst ∨ k ∈ l.map Prod.fst := by
      intro l
      induction l with
      | nil => intro acc hacc; exact .inl hacc
      | cons q rest ih =>
        intro acc hacc
        rcases ih _ hacc with h3 | h3
        · rcases alistSet_keys_subset _ _ _ _ h3 with h4 | h4
          · exact .inl h4
          · exact .inr (by simp [h4])
        · exact .inr (by simp [h3])
    rcases hgen areas [] h2 with h3 | h3
    · simp at h3
    · exact h3
  · exact .inr h2

/-! Device-count lemmas over the area index. -/

theorem devCount_cons (p : String × AreaBlock) (rest : List (String × AreaBlock))
    (d : String) :
    devCount (p :: rest) d
      = p.2.devices.countP (fun db => db.device_id == d) + devCount rest d := by
  simp [devCount, List.flatMap_cons, List.countP_append]

theorem devCount_nil_blocks (m : List (String × AreaBlock)) (d : String)
    (h : ∀ p ∈ m, p.2.devices = []) : devCount m d = 0 := by
  induction m with
  | nil => rfl
  | cons p rest ih =>
    rw [devCount_cons, h p (List.mem_cons_self p rest)]
    simpa using ih (fun q hq => h q (List.mem_cons_of_mem p hq))

theorem appendDevice_cons (p : String × AreaBlock) (rest : List (String × AreaBlock))
    (aId : String) (db : DeviceBlock) :
    appendDevice (p :: rest) aId db
      = (if (p.1 == aId) = true then (p.1, { p.2 with devices := p.2.devices ++ [db] })
         else p) :: appendDevice rest aId db := rfl

theorem appendDevice_devCount (m : List (String × AreaBlock)) (aId : String)
    (db : DeviceBlock) (d : String)
    (hnd : (m.map Prod.fst).Nodup) (haId : aId ∈ m.map Prod.fst) :
    devCount (appendDevice m aId db) d
      = devCount m d + (if (db.device_id == d) = true then 1 else 0) := by
  induction m with
  | nil => simp at haId
  | cons p rest ih =>
    simp only [List.map_cons, List.nodup_cons] at hnd
    rw [appendDevice_cons]
    by_cases hp : (p.1 == aId) = true
    · have hpa : p.1 = aId := by simpa using hp
      rw [if_pos hp]
      rw [appendDevice_of_not_mem rest aId db (hpa ▸ hnd.1)]
      rw [devCount_cons, devCount_cons]
      simp only [List.countP_append, List.countP_cons, List.countP_nil]
      cases hd : (db.device_id == d) <;> simp [hd] <;> try omega
    · rw [if_neg hp]
      have haId2 : aId ∈ rest.map Prod.fst := by
        simp only [List.map_cons, List.mem_cons] at haId
        rcases haId with h | h
        · exact absurd (by simp [h] : (p.1 == aId) = true) hp
        · exact h
      rw [devCount_cons, devCount_cons, ih hnd.2 haId2]
      omega

theorem devCount_pos_mem (m : List (String × AreaBlock)) (d : String)
    (h : 0 < devCount m d) :
    ∃ p ∈ m, ∃ db ∈ p.2.devices, (db.device_id == d) = true := by
  unfold devCount at h
  obtain ⟨db, hdb, hid⟩ := List.countP_pos.mp h
  obtain ⟨p, hp, hdbp⟩ := List.mem_flatMap.mp hdb
  exact ⟨p, hp, db, hdbp, hid⟩

theorem devCount_mem_pos (m : List (String × AreaBlock)) (d : String)
    (p : String × AreaBlock) (db : DeviceBlock)
    (hp : p ∈ m) (hdb : db ∈ p.2.devices) (hid : (db.device_id == d) = true) :
    0 < devCount m d := by
  unfold devCount
  apply List.countP_pos.mpr
  exact ⟨db, List.mem_flatMap.mpr ⟨p, hp, hdb⟩, hid⟩

theorem areasContaining_of_devCount_zero (m : List (String × AreaBlock)) (d : String)
    (h : devCount m d = 0) : areasContaining (m.map (fun p => p.2)) d = 0 := by
  induction m with
  | nil => rfl
  | cons p rest ih =>
    rw [devCount_cons] at h
    have hc : p.2.devices.countP (fun db => db.device_id == d) = 0 := by omega
    have hr : devCount rest d = 0 := by omega
    simp only [areasContaining, List.map_cons, List.countP_cons]
    rw [if_neg ?hany]
    case hany =>
      intro hany
      obtain ⟨db, hdb, hid⟩ := List.any_eq_true.mp hany
      have hpos : 0 < p.2.devices.countP (fun db => db.device_id == d) := by
        apply List.countP_pos.mpr
        exact ⟨db, hdb, hid⟩
      omega
    have := ih hr
    simp only [areasContaining] at this
    omega

theorem areasContaining_of_devCount_one (m : List (String × AreaBlock)) (d : String)
    (h : devCount m d = 1) : areasContaining (m.map (fun p => p.2)) d = 1 := by
  induction m with
  | nil => simp [devCount] at h
  | cons p rest ih =>
    rw [devCount_cons] at h
    simp only [areasContaining, List.map_cons, List.countP_cons]
    by_cases hc : p.2.devices.countP (fun db => db.device_id == d) = 0
    · have hr : devCount rest d = 1 := by omega
      rw [if_neg ?hany]
      case hany =>
        intro hany
        obtain ⟨db, hdb, hid⟩ := List.any_eq_true.mp hany
        have hpos : 0 < p.2.devices.countP (fun db => db.device_id == d) := by
          apply List.countP_pos.mpr
          exact ⟨db, hdb, hid⟩
        omega
      have := ih hr
      simp only [areasContaining] at this
      omega
    · have hr : devCount rest d = 0 := by omega
      have hpos : 0 < p.2.devices.countP (fun db => db.device_id == d) := by omega
      obtain ⟨db, hdb, hid⟩ := List.countP_pos.mp hpos
      have hany : (p.2.devices.any fun db => db.device_id == d) = true := by
        apply List.any_eq_true.mpr
        exact ⟨db, hdb, hid⟩
      rw [if_pos hany]
      have := areasContaining_of_devCount_zero rest d hr
      simp only [areasContaining] at this
      omega

/-! Uniqueness of the value at a key in a registry listing with unique keys. -/

theorem keys_nodup_unique {α : Type} (l : List (String × α)) (d : String) (a b : α)
    (hnd : (l.map Prod.fst).Nodup) (ha : (d, a) ∈ l) (hb : (d, b) ∈ l) : a = b := by
  induction l with
  | nil => simp at ha
  | cons p rest ih =>
    simp only [List.map_cons, List.nodup_cons] at hnd
    rcases List.mem_cons.mp ha with h1 | h1 <;> rcases List.mem_cons.mp hb with h2 | h2
    · rw [← h1] at h2
      exact (Prod.mk.injEq _ _ _ _ ▸ h2).2.symm
    · exfalso
      apply hnd.1
      rw [← h1]
      exact List.mem_map.mpr ⟨(d, b), h2, rfl⟩
    · exfalso
      apply hnd.1
      rw [← h2]
      exact List.mem_map.mpr ⟨(d, a), h1, rfl⟩
    · exact ih hnd.2 h1 h2

theorem countP_zero_keys {α : Type} (l : List (String × α)) (d : String)
    (f : α → Bool) (h : d ∉ l.map Prod.fst) :
    l.countP (fun q => (q.1 == d) && f q.2) = 0 := by
  induction l with
  | nil => rfl
  | cons p rest ih =>
    simp only [List.map_cons, List.mem_cons, not_or] at h
    rw [List.countP_cons]
    rw [if_neg ?hc]
    case hc =>
      simp only [Bool.and_eq_true, beq_iff_eq]
      rintro ⟨h1, _⟩
      exact h.1 h1.symm
    exact ih h.2

theorem countP_keys_nodup {α : Type} (l : List (String × α)) (d : String) (v : α)
    (f : α → Bool) (hnd : (l.map Prod.fst).Nodup) (hmem : (d, v) ∈ l) :
    l.countP (fun q => (q.1 == d) && f q.2) = if f v = true then 1 else 0 := by
  induction l with
  | nil => simp at hmem
  | cons p rest ih =>
    simp only [List.map_cons, List.nodup_cons] at hnd
    rw [List.countP_cons]
    rcases List.mem_cons.mp hmem with h1 | h1
    · have hz : rest.countP (fun q => (q.1 == d) && f q.2) = 0 := by
        apply countP_zero_keys
        rw [← h1] at hnd
        exact hnd.1
      rw [hz, ← h1]
      by_cases hf : f v = true
      · simp [hf]
      · simp [hf]
    · have hp1 : p.1 ≠ d := by
        intro hh
        apply hnd.1
        rw [hh]
        exact List.mem_map.mpr ⟨(d, v), h1, rfl⟩
      rw [if_neg (by simp [hp1])]
      simpa using ih hnd.2 h1

/-! The device-loop invariant of the Builder. -/

theorem gatherFold_inv (ents : Registry) (skip incl : Bool) :
    ∀ (devices : List (String × Device)) (m0 : List (String × AreaBlock)),
    "unassigned" ∈ m0.map Prod.fst →
    (∀ p ∈ m0, p.2.area_id = p.1) →
    ((m0.map Prod.fst).Nodup) →
    ((devices.foldl (gatherStep ents skip incl) m0).map Prod.fst = m0.map Prod.fst) ∧
    (∀ p ∈ devices.foldl (gatherStep ents skip incl) m0, p.2.area_id = p.1) ∧
    (∀ p ∈ devices.foldl (gatherStep ents skip incl) m0, ∀ db ∈ p.2.devices,
      (∃ q ∈ m0, q.1 = p.1 ∧ db ∈ q.2.devices) ∨
      ∃ dev, (db.device_id, dev) ∈ devices ∧ includedDev skip dev = true ∧
        resolveKey (m0.map Prod.fst) dev = p.1 ∧
        db = mkDeviceBlock db.device_id dev (fallbackScan ents db.device_id incl)) ∧
    (∀ d, devCount (devices.foldl (gatherStep ents skip incl) m0) d
      = devCount m0 d + devices.countP (fun q => (q.1 == d) && includedDev skip q.2)) := by
  intro devices
  induction devices with
  | nil =>
    intro m0 hq hA hnd
    refine ⟨rfl, hA, ?_, ?_⟩
    · intro p hp db hdb
      exact .inl ⟨p, hp, rfl, hdb⟩
    · intro d
      simp
  | cons pd rest ih =>
    intro m0 hq hA hnd
    rw [List.foldl_cons]
    by_cases hinc : includedDev skip pd.2 = true
    · have hstep : gatherStep ents skip incl m0 pd
          = appendDevice m0 (resolveAreaId m0 pd.2)
              (mkDeviceBlock pd.1 pd.2 (fallbackScan ents pd.1 incl)) := by
        unfold gatherStep
        rw [if_pos hinc]
      rw [hstep]
      have hkeys1 : (appendDevice m0 (resolveAreaId m0 pd.2)
          (mkDeviceBlock pd.1 pd.2 (fallbackScan ents pd.1 incl))).map Prod.fst
            = m0.map Prod.fst :=
        appendDevice_map_fst _ _ _
      have hq1 : "unassigned" ∈ (appendDevice m0 (resolveAreaId m0 pd.2)
          (mkDeviceBlock pd.1 pd.2 (fallbackScan ents pd.1 incl))).map Prod.fst := by
        rw [hkeys1]; exact hq
      have hA1 : ∀ p ∈ appendDevice m0 (resolveAreaId m0 pd.2)
          (mkDeviceBlock pd.1 pd.2 (fallbackScan ents pd.1 incl)), p.2.area_id = p.1 := by
        intro p hp
        obtain ⟨q, hqm, h1, h2, _⟩ := appendDevice_mem _ _ _ p hp
        rw [h2, hA q hqm, h1]
      have hnd1 : ((appendDevice m0 (resolveAreaId m0 pd.2)
          (mkDeviceBlock pd.1 pd.2 (fallbackScan ents pd.1 incl))).map Prod.fst).Nodup := by
        rw [hkeys1]; exact hnd
      obtain ⟨ih1, ih2, ih3, ih4⟩ := ih _ hq1 hA1 hnd1
      have haIdmem : resolveAreaId m0 pd.2 ∈ m0.map Prod.fst := by
        rw [resolveAreaId_eq_key]
        exact resolveKey_mem _ _ hq
      refine ⟨ih1.trans hkeys1, ih2, ?_, ?_⟩
      · intro p hp db hdb
        rcases ih3 p hp db hdb with ⟨q, hqm, hq1f, hdbq⟩ | ⟨dev, hdev, hdinc, hres, hshape⟩
        · obtain ⟨q0, hq0, he1, _, hcases⟩ := appendDevice_mem _ _ _ q hqm
          rcases hcases with hsame | ⟨happ, hqaId⟩
          · exact .inl ⟨q0, hq0, by rw [← he1, hq1f], by rwa [hsame] at hdbq⟩
          · rw [happ] at hdbq
            rcases List.mem_append.mp hdbq with hin | hin
            · exact .inl ⟨q0, hq0, by rw [← he1, hq1f], hin⟩
            · have hdbn : db = mkDeviceBlock pd.1 pd.2 (fallbackScan ents pd.1 incl) := by
                simpa using hin
              refine .inr ⟨pd.2, ?_, hinc, ?_, ?_⟩
              · rw [hdbn]
                exact List.mem_cons_self pd rest
              · rw [← hq1f, hqaId, ← resolveAreaId_eq_key]
              · rw [hdbn]
                rfl
        · rw [hkeys1] at hres
          exact .inr ⟨dev, List.mem_cons_of_mem pd hdev, hdinc, hres, hshape⟩
      · intro d
        rw [ih4 d, appendDevice_devCount m0 _ _ d hnd haIdmem, List.countP_cons]
        have hdevid : (mkDeviceBlock pd.1 pd.2 (fallbackScan ents pd.1 incl)).device_id
            = pd.1 := rfl
        rw [hdevid]
        by_cases hd : (pd.1 == d) = true
        · rw [if_pos hd, if_pos (by simp [hd, hinc])]
          omega
        · rw [if_neg hd, if_neg (by simp [hd])]
          omega
    · have hstep : gatherStep ents skip incl m0 pd = m0 := by
        unfold gatherStep
        rw [if_neg hinc]
      rw [hstep]
      obtain ⟨ih1, ih2, ih3, ih4⟩ := ih m0 hq hA hnd
      refine ⟨ih1, ih2, ?_, ?_⟩
      · intro p hp db hdb
        rcases ih3 p hp db hdb with h | ⟨dev, hdev, hrest⟩
        · exact .inl h
        · exact .inr ⟨dev, List.mem_cons_of_mem pd hdev, hrest⟩
      · intro d
        rw [ih4 d, List.countP_cons, if_neg (by simp [hinc])]
        omega

/-- The filter condition of step 2 phrased as the spec does. -/
theorem includedDev_iff (skip : Bool) (dev : Device) :
    includedDev skip dev = true ↔
      (skip = false ∨ (optTruthy dev.name = true ∧ optTruthy dev.manufacturer = true)) := by
  cases skip <;> cases hn : optTruthy dev.name <;> cases hm : optTruthy dev.manufacturer <;>
    simp [includedDev, hn, hm]

/-- A device whose area reference is absent, empty, or names no known area resolves to
the synthetic "unassigned" key. -/
theorem resolveKey_unassigned (areas : List (String × AreaReg)) (dev : Device)
    (hcond : dev.area_id = none ∨
      ∀ s, dev.area_id = some s → s = "" ∨ s ∉ areas.map Prod.fst) :
    resolveKey ((mkAreaMap areas).map Prod.fst) dev = "unassigned" := by
  unfold resolveKey
  cases harea : dev.area_id with
  | none => simp
  | some s =>
    rcases hcond with h | h
    · rw [harea] at h
      cases h
    · rcases h s harea with h1 | h1
      · subst h1
        simp
      · by_cases hse : s = ""
        · subst hse
          simp
        · have hs1 : (if s == "" then "unassigned" else s) = s := by
            rw [if_neg (by simp [hse])]
          simp only [hs1]
          by_cases hmem2 : s ∈ (mkAreaMap areas).map Prod.fst
          · rcases mkAreaMap_keys_subset areas s hmem2 with h2 | h2
            · exact absurd h2 h1
            · rw [if_pos hmem2]
              exact h2
          · rw [if_neg hmem2]

/-- Keys produced by seeding the area index from the real areas, in source order. -/
theorem seedAreas_keys : ∀ (l : List (String × AreaReg)) (acc : List (String × AreaBlock)),
    ((l.map Prod.fst).Nodup) → (∀ k ∈ l.map Prod.fst, k ∉ acc.map Prod.fst) →
    ((l.foldl (fun m p => alistSet m p.1 ⟨p.1, p.2.name, []⟩) acc).map Prod.fst)
      = acc.map Prod.fst ++ l.map Prod.fst := by
  intro l
  induction l with
  | nil =>
    intro acc _ _
    simp
  | cons q rest ih =>
    intro acc hnd hdis
    simp only [List.map_cons, List.nodup_cons] at hnd
    rw [List.foldl_cons]
    have hq : q.1 ∉ acc.map Prod.fst := hdis q.1 (by simp)
    have hkeys := alistSet_map_fst_of_not_mem acc q.1 ⟨q.1, q.2.name, []⟩ hq
    rw [ih (alistSet acc q.1 ⟨q.1, q.2.name, []⟩) hnd.2 ?hdis2, hkeys]
    · simp
    case hdis2 =>
      intro k hk
      rw [hkeys]
      simp only [List.mem_append, List.mem_singleton, not_or]
      exact ⟨hdis k (by simp [hk]), fun hh => hnd.1 (hh ▸ hk)⟩

/-- Keys of the complete area index when no real area reuses "unassigned". -/
theorem mkAreaMap_keys_of (areas : List (String × AreaReg))
    (hnd : (areas.map Prod.fst).Nodup) (hu : "unassigned" ∉ areas.map Prod.fst) :
    (mkAreaMap areas).map Prod.fst = areas.map Prod.fst ++ ["unassigned"] := by
  unfold mkAreaMap
  have hseed := seedAreas_keys areas [] hnd (by simp)
  simp only [List.map_nil, List.nil_append] at hseed
  rw [alistSet_map_fst_of_not_mem _ _ _ (by rw [hseed]; exact hu), hseed]

theorem map_area_id_eq_fst (m : List (String × AreaBlock))
    (h : ∀ p ∈ m, p.2.area_id = p.1) :
    m.map (fun p => p.2.area_id) = m.map Prod.fst := by
  induction m with
  | nil => rfl
  | cons p rest ih =>
    simp only [List.map_cons]
    rw [h p (by simp), ih (fun q hq => h q (List.mem_cons_of_mem p hq))]

/-- C2: a device contributes a DeviceBlock to the document iff skip_nameless_devices is
false or its display name and manufacturer are both non-empty, and every EntityBlock
anywhere in the document comes from a registry entry owned by the device block that
holds it (so an excluded device contributes no DeviceBlock and no EntityBlock). -/
theorem claim_C2_device_filter (devices : List (String × Device))
    (areas : List (String × AreaReg)) (ents : Registry) (skip incl : Bool)
    (d : String) (dev : Device)
    (hnd : (devices.map Prod.fst).Nodup) (hmem : (d, dev) ∈ devices) :
    ((∃ fl ∈ (gather devices areas ents skip incl).floors, ∃ ab ∈ fl.areas,
        ∃ db ∈ ab.devices, db.device_id = d)
      ↔ (skip = false ∨ (optTruthy dev.name = true ∧ optTruthy dev.manufacturer = true))) ∧
    (∀ fl ∈ (gather devices areas ents skip incl).floors, ∀ ab ∈ fl.areas,
      ∀ db ∈ ab.devices, ∀ eb ∈ db.entities, ∃ e ∈ ents,
        e.device_id = some db.device_id ∧ (incl || !optTruthy e.disabled_by) = true ∧
        eb = entityBlockOf e) := by
  obtain ⟨inv1, inv2, inv3, inv4⟩ := gatherFold_inv ents skip incl devices (mkAreaMap areas)
    (mkAreaMap_unassigned_mem areas) (mkAreaMap_area_id areas) (mkAreaMap_keys_nodup areas)
  constructor
  · constructor
    · rintro ⟨fl, hfl, ab, hab, db, hdb, hdbid⟩
      simp only [gather, List.mem_singleton] at hfl
      subst hfl
      simp only at hab
      obtain ⟨p, hp, hab2⟩ := List.mem_map.mp hab
      rw [← hab2] at hdb
      rcases inv3 p hp db hdb with ⟨q, hq, _, hdbq⟩ | ⟨dev2, hdev2, hinc2, _, _⟩
      · rw [mkAreaMap_devices_nil areas q hq] at hdbq
        cases hdbq
      · rw [hdbid] at hdev2
        have hsame : dev2 = dev := keys_nodup_unique devices d dev2 dev hnd hdev2 hmem
        exact (includedDev_iff skip dev).mp (hsame ▸ hinc2)
    · intro hcond
      have hinc : includedDev skip dev = true := (includedDev_iff skip dev).mpr hcond
      have hcount : devCount (devices.foldl (gatherStep ents skip incl) (mkAreaMap areas)) d
          = 1 := by
        rw [inv4 d, devCount_nil_blocks _ d (mkAreaMap_devices_nil areas),
          countP_keys_nodup devices d dev (includedDev skip) hnd hmem, if_pos hinc]
      have hpos : 0 < devCount (devices.foldl (gatherStep ents skip incl) (mkAreaMap areas)) d := by
        omega
      obtain ⟨p, hp, db, hdb, hid⟩ := devCount_pos_mem _ d hpos
      refine ⟨⟨"floor_1", "Default Floor",
          (devices.foldl (gatherStep ents skip incl) (mkAreaMap areas)).map (fun q => q.2)⟩,
        by simp [gather], p.2, List.mem_map.mpr ⟨p, hp, rfl⟩, db, hdb, by simpa using hid⟩
  · intro fl hfl ab hab db hdb eb heb
    simp only [gather, List.mem_singleton] at hfl
    subst hfl
    simp only at hab
    obtain ⟨p, hp, hab2⟩ := List.mem_map.mp hab
    rw [← hab2] at hdb
    rcases inv3 p hp db hdb with ⟨q, hq, _, hdbq⟩ | ⟨dev2, _, _, _, hshape⟩
    · rw [mkAreaMap_devices_nil areas q hq] at hdbq
      cases hdbq
    · rw [hshape] at heb
      simp only [mkDeviceBlock] at heb
      obtain ⟨e, he, hebe⟩ := List.mem_map.mp heb
      rw [fallbackScan, List.mem_filter] at he
      have hpred := he.2
      simp only [Bool.and_eq_true, beq_iff_eq] at hpred
      exact ⟨e, he.1, hpred.1, hpred.2, hebe.symm⟩

/-- Witness for C2: with skip_nameless_devices set, the nameless device d2 contributes
no DeviceBlock. -/
theorem claim_C2_witness :
    ¬(∃ fl ∈ (gather exDevs2 exAreas1 [] true false).floors, ∃ ab ∈ fl.areas,
        ∃ db ∈ ab.devices, db.device_id = "d2") := fun h =>
  absurd ((claim_C2_device_filter exDevs2 exAreas1 [] true false "d2"
      ⟨none, some "Acme", none, none⟩ (by decide) (by decide)).1.mp h)
    (by decide)

/-- C8: every included device appears in exactly one AreaBlock; a device whose area
reference is absent or names no known area is placed in the block whose area_id is
"unassigned"; and every AreaBlock carries either a real area id or exactly
"unassigned". -/
theorem claim_C8_partition (devices : List (String × Device))
    (areas : List (String × AreaReg)) (ents : Registry) (skip incl : Bool)
    (d : String) (dev : Device)
    (hnd : (devices.map Prod.fst).Nodup) (hmem : (d, dev) ∈ devices)
    (hinc : includedDev skip dev = true) :
    ((gather devices areas ents skip incl).floors.map
        (fun fl => areasContaining fl.areas d) = [1]) ∧
    ((dev.area_id = none ∨ ∀ s, dev.area_id = some s → s = "" ∨ s ∉ areas.map Prod.fst) →
      ∀ fl ∈ (gather devices areas ents skip incl).floors, ∀ ab ∈ fl.areas,
        (∃ db ∈ ab.devices, db.device_id = d) → ab.area_id = "unassigned") ∧
    (∀ fl ∈ (gather devices areas ents skip incl).floors, ∀ ab ∈ fl.areas,
      ab.area_id ∈ areas.map Prod.fst ∨ ab.area_id = "unassigned") := by
  obtain ⟨inv1, inv2, inv3, inv4⟩ := gatherFold_inv ents skip incl devices (mkAreaMap areas)
    (mkAreaMap_unassigned_mem areas) (mkAreaMap_area_id areas) (mkAreaMap_keys_nodup areas)
  have hcount : devCount (devices.foldl (gatherStep ents skip incl) (mkAreaMap areas)) d
      = 1 := by
    rw [inv4 d, devCount_nil_blocks _ d (mkAreaMap_devices_nil areas),
      countP_keys_nodup devices d dev (includedDev skip) hnd hmem, if_pos hinc]
  refine ⟨?_, ?_, ?_⟩
  · simp only [gather, List.map_cons, List.map_nil]
    rw [areasContaining_of_devCount_one _ d hcount]
  · intro hcond fl hfl ab hab hex
    obtain ⟨db, hdb, hdbid⟩ := hex
    simp only [gather, List.mem_singleton] at hfl
    subst hfl
    simp only at hab
    obtain ⟨p, hp, hab2⟩ := List.mem_map.mp hab
    rw [← hab2] at hdb
    rcases inv3 p hp db hdb with ⟨q, hq, _, hdbq⟩ | ⟨dev2, hdev2, _, hres, _⟩
    · rw [mkAreaMap_devices_nil areas q hq] at hdbq
      cases hdbq
    · rw [hdbid] at hdev2
      have hsame : dev2 = dev := keys_nodup_unique devices d dev2 dev hnd hdev2 hmem
      rw [← hab2, inv2 p hp, ← hres, hsame]
      exact resolveKey_unassigned areas dev hcond
  · intro fl hfl ab hab
    simp only [gather, List.mem_singleton] at hfl
    subst hfl
    simp only at hab
    obtain ⟨p, hp, hab2⟩ := List.mem_map.mp hab
    have hkey : p.1 ∈ (mkAreaMap areas).map Prod.fst := by
      rw [← inv1]
      exact List.mem_map.mpr ⟨p, hp, rfl⟩
    rw [← hab2, inv2 p hp]
    exact mkAreaMap_keys_subset areas p.1 hkey

/-- Witness for C8: the single included device with an unknown area reference lands in
exactly one AreaBlock. -/
theorem claim_C8_witness :
    (gather exDevs3 exAreas1 [] true false).floors.map
      (fun fl => areasContaining fl.areas "d1") = [1] :=
  (claim_C8_partition exDevs3 exAreas1 [] true false "d1"
    ⟨some "Lamp", some "Acme", none, some "ghost"⟩ (by decide) (by decide) (by decide)).1

/-- C9 fails on the code: a real Area whose id is literally "unassigned" is overwritten
by the synthetic Unassigned block, so the document holds one AreaBlock where the claim
demands one per real Area plus one synthetic (two). -/
theorem claim_C9_counterexample :
    ((gather [] exAreasUn [] true false).floors.map fun fl => fl.areas.length) = [1] ∧
    ((gather [] exAreasUn [] true false).floors.map fun fl => fl.areas.length)
      ≠ [exAreasUn.length + 1] := by
  refine ⟨rfl, fun h => ?_⟩
  rw [show ((gather [] exAreasUn [] true false).floors.map fun fl => fl.areas.length)
      = [1] from rfl] at h
  simp [exAreasUn] at h

/-- C9 amended: provided no real Area has the id "unassigned" (their ids being unique),
the single floor holds exactly one AreaBlock per real Area, in the source order,
followed by exactly one synthetic "unassigned" block last; a real Area with id
"unassigned" is instead replaced by the synthetic block at its original position. -/
theorem claim_C9_amended (devices : List (String × Device))
    (areas : List (String × AreaReg)) (ents : Registry) (skip incl : Bool)
    (hnd : (areas.map Prod.fst).Nodup) (hu : "unassigned" ∉ areas.map Prod.fst) :
    (gather devices areas ents skip incl).floors.map
        (fun fl => fl.areas.map fun ab => ab.area_id)
      = [areas.map Prod.fst ++ ["unassigned"]] := by
  obtain ⟨inv1, inv2, _, _⟩ := gatherFold_inv ents skip incl devices (mkAreaMap areas)
    (mkAreaMap_unassigned_mem areas) (mkAreaMap_area_id areas) (mkAreaMap_keys_nodup areas)
  simp only [gather, List.map_cons, List.map_nil, List.map_map]
  rw [show ((fun ab => ab.area_id) ∘ fun q : String × AreaBlock => q.2)
      = fun p : String × AreaBlock => p.2.area_id from rfl]
  rw [map_area_id_eq_fst _ inv2, inv1, mkAreaMap_keys_of areas hnd hu]

/-- Witness for the amended C9 at one real area plus the synthetic block. -/
theorem claim_C9_amended_witness :
    (gather [] exAreas1 [] true false).floors.map
        (fun fl => fl.areas.map fun ab => ab.area_id)
      = [["living", "unassigned"]] :=
  claim_C9_amended [] exAreas1 [] true false (by decide) (by decide)

/-! The indexed-lookup strategy against the fallback linear scan. -/

theorem gatherDevsIdx_spec (ents : Registry) (skip incl : Bool) :
    ∀ (devices : List (String × Device)) (m : List (String × AreaBlock)),
    gatherDevsIdx (fun dId => .ok (specEntriesForDevice ents dId incl)) ents skip incl
        devices m
      = .ok (devices.foldl (gatherStep ents skip incl) m) := by
  intro devices
  induction devices with
  | nil =>
    intro m
    rfl
  | cons pd rest ih =>
    intro m
    rw [List.foldl_cons]
    by_cases hinc : includedDev skip pd.2 = true
    · simp only [gatherDevsIdx, if_pos hinc]
      rw [ih]
      rw [show gatherStep ents skip incl m pd
          = appendDevice m (resolveAreaId m pd.2)
              (mkDeviceBlock pd.1 pd.2 (fallbackScan ents pd.1 incl)) from by
        unfold gatherStep
        rw [if_pos hinc]]
      rfl
    · simp only [gatherDevsIdx, if_neg hinc]
      rw [ih]
      rw [show gatherStep ents skip incl m pd = m from by
        unfold gatherStep
        rw [if_neg hinc]]

theorem gatherDevsIdx_unavailable (ents : Registry) (skip incl : Bool) :
    ∀ (devices : List (String × Device)) (m : List (String × AreaBlock)),
    gatherDevsIdx (fun _ => .unavailable) ents skip incl devices m
      = .ok (devices.foldl (gatherStep ents skip incl) m) := by
  intro devices
  induction devices with
  | nil =>
    intro m
    rfl
  | cons pd rest ih =>
    intro m
    rw [List.foldl_cons]
    by_cases hinc : includedDev skip pd.2 = true
    · simp only [gatherDevsIdx, if_pos hinc]
      rw [ih]
      rw [show gatherStep ents skip incl m pd
          = appendDevice m (resolveAreaId m pd.2)
              (mkDeviceBlock pd.1 pd.2 (fallbackScan ents pd.1 incl)) from by
        unfold gatherStep
        rw [if_pos hinc]]
    · simp only [gatherDevsIdx, if_neg hinc]
      rw [ih]
      rw [show gatherStep ents skip incl m pd = m from by
        unfold gatherStep
        rw [if_neg hinc]]

theorem gatherDevsIdx_raises (ents : Registry) (skip incl : Bool) :
    ∀ (devices : List (String × Device)) (m : List (String × AreaBlock)),
    (∃ p ∈ devices, includedDev skip p.2 = true) →
    gatherDevsIdx (fun _ => .raises) ents skip incl devices m = .error () := by
  intro devices
  induction devices with
  | nil =>
    intro m h
    simp at h
  | cons pd rest ih =>
    intro m h
    by_cases hinc : includedDev skip pd.2 = true
    · simp only [gatherDevsIdx, if_pos hinc]
    · simp only [gatherDevsIdx, if_neg hinc]
      apply ih
      rcases h with ⟨p, hp, hpinc⟩
      rcases List.mem_cons.mp hp with h1 | h1
      · exact absurd (h1 ▸ hpinc) hinc
      · exact ⟨p, h1, hpinc⟩

/-- C7: the document built when per-device entity resolution goes through the indexed
host lookup (modelled from the spec contract) is identical to the document built with
only the fallback full linear scan; the fallback answers exactly the missing-capability
outcome, while a lookup that raises for another reason aborts the export instead of
falling back. -/
theorem claim_C7_fallback_refinement (devices : List (String × Device))
    (areas : List (String × AreaReg)) (ents : Registry) (skip incl : Bool) :
    (gatherIdx (fun dId => .ok (specEntriesForDevice ents dId incl)) devices areas ents
        skip incl = .ok (gather devices areas ents skip incl)) ∧
    (gatherIdx (fun _ => .unavailable) devices areas ents skip incl
      = .ok (gather devices areas ents skip incl)) ∧
    ((∃ p ∈ devices, includedDev skip p.2 = true) →
      gatherIdx (fun _ => .raises) devices areas ents skip incl = .error ()) := by
  refine ⟨?_, ?_, ?_⟩
  · simp only [gatherIdx, gatherDevsIdx_spec ents skip incl devices (mkAreaMap areas)]
    rfl
  · simp only [gatherIdx, gatherDevsIdx_unavailable ents skip incl devices (mkAreaMap areas)]
    rfl
  · intro h
    simp only [gatherIdx, gatherDevsIdx_raises ents skip incl devices (mkAreaMap areas) h]

/-- Witness for C7: with an included device present, a raising indexed lookup aborts
the export. -/
theorem claim_C7_witness :
    gatherIdx (fun _ => .raises) exDevs3 exAreas1 [] true false = .error () :=
  (claim_C7_fallback_refinement exDevs3 exAreas1 [] true false).2.2
    ⟨("d1", ⟨some "Lamp", some "Acme", none, some "ghost"⟩), by decide, by decide⟩

end HaSnapshot
